import Mathlib

set_option maxHeartbeats 1000000
set_option maxRecDepth 16000

/-
  Shallow embedding of the per-slice quasi-static solver core of HiPACE++
  (plasma AB5 pusher, adaptive time step, slice allocation, predictor-corrector
  driver, Dirichlet FFT Poisson solver, geometric multigrid driver,
  longitudinal pipeline, slipped-particle shift).

  Real-valued quantities of the C++ code (amrex::Real) are modelled as ℚ where
  the code only uses field arithmetic and comparisons, and as ℝ where the code
  takes square roots or sines.  Integer indices are ℕ/ℤ.
-/

namespace Hipace

/-! ## Plasma AB5 pusher
    From `src/particles/pusher/PlasmaParticleAdvance.cpp`, AB5 branch of
    `AdvancePlasmaParticles` (lines 222-271) and the force-history shift
    (lines 275-304). -/

/-- One entry of the force history ring: the per-step derivative of
    (x, y, ux, uy, psi) with respect to zeta. -/
structure Force where
  fx : ℚ
  fy : ℚ
  fux : ℚ
  fuy : ℚ
  fpsi : ℚ
deriving DecidableEq

/-- Plasma particle state entering the AB5 push: positions, momenta,
    pseudopotential, and the ring of 5 force-history slots
    (slot 0 = Fx1/Fy1/Fux1/Fuy1/Fpsi1, ..., slot 4 = Fx5/.../Fpsi5). -/
structure PlasmaState where
  x : ℚ
  y : ℚ
  ux : ℚ
  uy : ℚ
  psi : ℚ
  hist : Fin 5 → Force

/-- The five AB5 coefficients exactly as written in the source
    (`ab5_coeffs` local array, PlasmaParticleAdvance.cpp lines 237-243):
    each entry is the rational coefficient times dz. -/
def ab5_coeffs (dz : ℚ) : Fin 5 → ℚ
  | 0 => (1901 / 720) * dz
  | 1 => (-1387 / 360) * dz
  | 2 => (109 / 30) * dz
  | 3 => (-637 / 360) * dz
  | 4 => (251 / 720) * dz

/-- The coefficient list asserted by the specification:
    (1901, -1387, 2163, -1637, 501)/720 times dz. -/
def claimed_ab5_coeffs (dz : ℚ) : Fin 5 → ℚ
  | 0 => (1901 / 720) * dz
  | 1 => (-1387 / 720) * dz
  | 2 => (2163 / 720) * dz
  | 3 => (-1637 / 720) * dz
  | 4 => (501 / 720) * dz

/-- Writing the freshly evaluated derivative into history slot 0
    (arrdata[Fx1][ip] = ..., lines 231-235): the ring with the new entry
    appended. -/
def histWithNew (hist : Fin 5 → Force) (f1 : Force) : Fin 5 → Force :=
  fun iab => if iab = 0 then f1 else hist iab

/-- The force-history shift performed after a non-temp push
    (the chain of `swap`s on Fx5..Fx1 etc., lines 280-302).  Tracking the
    swap chain: slot k+1 receives slot k's value, slot 0 receives slot 4's
    (overwritten by the next evaluation). -/
def shiftForceTerms (hist : Fin 5 → Force) : Fin 5 → Force :=
  fun iab => if iab = 0 then hist 4 else hist (iab - 1)

/-- The AB5 push for one particle (lines 222-271): evaluate the derivative
    from the gathered fields (`PlasmaMomentumPush` output `dz_ux, dz_uy,
    dz_psi` is taken as input here), store it in slot 0 together with the
    position derivatives `clight_inv*(u*psi_inv)`, add the AB5-weighted sum
    of the 5 history slots to each state component, and (for a non-temp
    slice) rotate the ring. -/
def ab5Push (dz clight_inv : ℚ) (st : PlasmaState)
    (dz_ux dz_uy dz_psi : ℚ) (temp_slice : Bool) : PlasmaState :=
  let psi_inv := 1 / st.psi
  let f1 : Force :=
    { fx := clight_inv * (st.ux * psi_inv)
      fy := clight_inv * (st.uy * psi_inv)
      fux := dz_ux
      fuy := dz_uy
      fpsi := dz_psi }
  let h := histWithNew st.hist f1
  { x := st.x + ∑ iab : Fin 5, ab5_coeffs dz iab * (h iab).fx
    y := st.y + ∑ iab : Fin 5, ab5_coeffs dz iab * (h iab).fy
    ux := st.ux + ∑ iab : Fin 5, ab5_coeffs dz iab * (h iab).fux
    uy := st.uy + ∑ iab : Fin 5, ab5_coeffs dz iab * (h iab).fuy
    psi := st.psi + ∑ iab : Fin 5, ab5_coeffs dz iab * (h iab).fpsi
    hist := if temp_slice then h else shiftForceTerms h }

/-! ## Slice field allocation
    From `src/fields/Fields.cpp`, `Fields::AllocData` (lines 44-62, 135-141):
    both branches (extended solve or not) set
    `nguards_xy = (depos_order_xy + 1) / 2 + 1` (C++ integer division) and
    `m_slices_nguards = {nguards_xy, nguards_xy, 0}`; all components are then
    allocated in the single MultiFab `m_slices[lev]` with these ghost cells,
    so they share one box. -/

/-- Transverse ghost-cell width from the source: C++ integer (floor)
    division. -/
def slices_nguards_xy (depos_order_xy : ℕ) : ℕ :=
  (depos_order_xy + 1) / 2 + 1

/-- The full ghost-cell vector `m_slices_nguards = {nguards_xy, nguards_xy, 0}`. -/
def slices_nguards (depos_order_xy : ℕ) : ℕ × ℕ × ℕ :=
  (slices_nguards_xy depos_order_xy, slices_nguards_xy depos_order_xy, 0)

/-- The ghost-cell width asserted by the specification:
    `ceil((depos_order_xy + 1)/2) + 1` with real division under the ceiling. -/
def claimed_nguards_xy (depos_order_xy : ℕ) : ℕ :=
  Nat.ceil (((depos_order_xy : ℚ) + 1) / 2) + 1

/-! ## Predictor-corrector loop for (Bx, By)
    From `src/Hipace.cpp`, `Hipace::PredictorCorrectorLoopToSolveBxBy`
    (lines 562-632) and the static defaults (lines 23-24). -/

/-- Default `hipace.predcorr_B_error_tolerance` (Hipace.cpp line 23). -/
def predcorr_B_error_tolerance_default : ℚ := 4 / 100

/-- Default `hipace.predcorr_max_iterations` (Hipace.cpp line 24). -/
def predcorr_max_iterations_default : ℕ := 5

/-- The while loop
    `while ((relative_Bfield_error > tol) && (i_iter < max_iter))`.
    `err n` is the relative B-field error computed by iteration `n`
    (1-based, the value of `ComputeRelBFieldError` after `i_iter` was
    incremented to `n`); the remaining-iteration count `rem = max_iter - i`
    is the structural fuel.  Returns the final `(i_iter,
    relative_Bfield_error)`. -/
def pcLoopGo (tol : ℚ) (err : ℕ → ℚ) : ℕ → ℚ → ℕ → ℕ × ℚ
  | i, e, 0 => (i, e)
  | i, e, rem + 1 => if e > tol then pcLoopGo tol err (i + 1) (err (i + 1)) rem else (i, e)

/-- The full loop: `i_iter = 0`, `relative_Bfield_error = 1.0` initially. -/
def pcLoop (tol : ℚ) (maxIter : ℕ) (err : ℕ → ℚ) : ℕ × ℚ :=
  pcLoopGo tol err 0 1 maxIter

/-- The post-loop divergence check (Hipace.cpp line 618):
    `if (relative_Bfield_error > 10.) amrex::Abort(...)`. -/
def pcAborts (tol : ℚ) (maxIter : ℕ) (err : ℕ → ℚ) : Prop :=
  (pcLoop tol maxIter err).2 > 10

instance (tol : ℚ) (maxIter : ℕ) (err : ℕ → ℚ) : Decidable (pcAborts tol maxIter err) := by
  unfold pcAborts
  infer_instance

/-- The abort message of the diverged predictor-corrector loop
    (Hipace.cpp lines 620-628). -/
def predcorrAbortMessage : String :=
  "Predictor corrector loop diverged!\nRe-try by adjusting the following paramters in the input script:\n- lower mixing factor: hipace.predcorr_B_mixing_factor (hidden default: 0.1) \n- lower B field error tolerance: hipace.fld_predcorr_tol_b (hidden default: 0.04)\n- higher number of iterations in the pred. cor. loop:hipace.fld_predcorr_n_max_iter (hidden default: 5)\n- higher longitudinal resolution"

/-! ## Relative B-field error
    From `src/Hipace.cpp`, `Hipace::ComputeRelBFieldError` (lines 634-669):
    `norm_B = sqrt(Dot(Bx) + Dot(By))`, `norm_Bdiff = sqrt(Dot(Bx - Bx_iter)
    + Dot(By - By_iter))`, and the guarded division
    `(norm_B/bx.numPts() > 1e-10) ? norm_Bdiff/norm_B : 0`.
    The cell values of a field component on the valid box are modelled as a
    list of reals; `MultiFab::Dot` of a component with itself is the sum of
    squares. -/

/-- `amrex::MultiFab::Dot` of one component with itself: sum of squared
    cell values. -/
noncomputable def fieldDot (v : List ℝ) : ℝ :=
  (v.map fun a => a * a).sum

/-- `Hipace::ComputeRelBFieldError`: the relative B-field error between
    (Bx, By) and (Bx_iter, By_iter) over a box with `numPts` points. -/
noncomputable def computeRelBFieldError
    (bxv byv bxIter byIter : List ℝ) (numPts : ℕ) : ℝ :=
  let norm_B := Real.sqrt (fieldDot bxv + fieldDot byv)
  let norm_Bdiff := Real.sqrt (fieldDot (List.zipWith (fun a b => a - b) bxv bxIter)
    + fieldDot (List.zipWith (fun a b => a - b) byv byIter))
  if norm_B / numPts > 1 / 10 ^ 10 then norm_Bdiff / norm_B else 0

/-! ## Adaptive time step
    From `src/utils/AdaptiveTimeStep.cpp`, `CalculateFromMinUz`
    (lines 194-217): weighted mean and standard deviation of uz from the
    accumulators, `sigma_uz_dev = mean - 4*sigma`,
    `chosen_min_uz = min(max(sigma_uz_dev, MinUz), 1e30)`, scaling by
    `mass^2/m_e^2`, warning threshold, and the clamp
    `beams_min_uz = max(beams_min_uz, m_threshold_uz)`. -/

/-- Weighted standard deviation of uz:
    `sqrt(abs(SumWeightsTimesUzSquared/SumWeights - mean_uz^2))`. -/
noncomputable def sigma_uz (sumW sumWUz sumWUzSq : ℝ) : ℝ :=
  Real.sqrt |sumWUzSq / sumW - (sumWUz / sumW) * (sumWUz / sumW)|

/-- `max_supported_uz` (AdaptiveTimeStep.cpp line 201). -/
noncomputable def max_supported_uz : ℝ := 10 ^ 30

/-- `chosen_min_uz` (lines 200-204):
    `std::min(std::max(mean - 4*sigma, MinUz), max_supported_uz)`. -/
noncomputable def chosen_min_uz (sumW sumWUz sumWUzSq minUz : ℝ) : ℝ :=
  min (max (sumWUz / sumW - 4 * sigma_uz sumW sumWUz sumWUzSq) minUz) max_supported_uz

/-- The candidate minimum uz actually used for the new time step
    (`beams_min_uz[ibeam]` after lines 206 and 217): the mass-scaled
    `chosen_min_uz`, clamped from below by `hipace.adaptive_threshold_uz`. -/
noncomputable def candidate_min_uz
    (sumW sumWUz sumWUzSq minUz mass m_e threshold : ℝ) : ℝ :=
  max (chosen_min_uz sumW sumWUz sumWUzSq minUz * mass * mass / m_e / m_e) threshold

/-- The candidate asserted by the specification:
    `max(min(mean - 4*sigma, min_uz), threshold)`. -/
noncomputable def claimed_candidate_min_uz
    (sumW sumWUz sumWUzSq minUz threshold : ℝ) : ℝ :=
  max (min (sumWUz / sumW - 4 * sigma_uz sumW sumWUz sumWUzSq) minUz) threshold

/-! ## Dirichlet FFT Poisson solver (expanded formulation)
    From `src/fields/fft_poisson_solver/FFTPoissonSolverDirichletExpanded.cpp`.
    Grids are functions from (0-based) integer indices to reals; the box
    offset `lo` is normalized to 0 (the code subtracts `lo` everywhere).
    The R2C FFT is modelled as the exact 2-D discrete Fourier transform. -/

/-- `ExpandR2R` (lines 24-45): antisymmetric embedding of an (nx, ny) slice
    into the zero-initialized (2nx+2, 2ny+2) expanded array.  Positions are
    the destination indices; the four quadrant formulas are the four stores
    of the source loop, everything else (the i=0, j=0, i=nx+1, j=ny+1 lines
    and anything outside the box) stays 0. -/
noncomputable def expandR2R (nx ny : ℕ) (src : ℕ → ℕ → ℝ) (i j : ℕ) : ℝ :=
  if 1 ≤ i ∧ i ≤ nx ∧ 1 ≤ j ∧ j ≤ ny then
    src (i - 1) (j - 1)
  else if 1 ≤ i ∧ i ≤ nx ∧ ny + 2 ≤ j ∧ j ≤ 2 * ny + 1 then
    -src (i - 1) (2 * ny + 1 - j)
  else if nx + 2 ≤ i ∧ i ≤ 2 * nx + 1 ∧ 1 ≤ j ∧ j ≤ ny then
    -src (2 * nx + 1 - i) (j - 1)
  else if nx + 2 ≤ i ∧ i ≤ 2 * nx + 1 ∧ ny + 2 ≤ j ∧ j ≤ 2 * ny + 1 then
    src (2 * nx + 1 - i) (2 * ny + 1 - j)
  else 0

/-- The forward 2-D discrete Fourier transform of a real (n0, n1) array
    (the mathematical transform computed by the R2C FFT plan). -/
noncomputable def dftR2C (n0 n1 : ℕ) (f : ℕ → ℕ → ℝ) (k0 k1 : ℕ) : ℂ :=
  ∑ a ∈ Finset.range n0, ∑ b ∈ Finset.range n1,
    (f a b : ℂ) * Complex.exp (-2 * Real.pi * Complex.I *
      ((k0 : ℂ) * a / n0 + (k1 : ℂ) * b / n1))

/-- `ShrinkC2R` (lines 47-58): `dst(i,j) = -src(i+1, j+1).real()`. -/
noncomputable def shrinkC2R (fourier : ℕ → ℕ → ℂ) (i j : ℕ) : ℝ :=
  -(fourier (i + 1) (j + 1)).re

/-- `norm_fac` (line 99): `0.5 / (2*((nx+1)*(ny+1)))`. -/
noncomputable def norm_fac (nx ny : ℕ) : ℝ :=
  0.5 / (2 * (((nx : ℝ) + 1) * ((ny : ℝ) + 1)))

/-- `m_eigenvalue_matrix` (lines 94-119), at 0-based array index (i, j):
    `sine_x_factor = pi/(2(nx+1))`, `sinex_sq = sin((i+1)*fac)^2`, and the
    guarded value `norm_fac / (-4*(sinex_sq/dx^2 + siney_sq/dy^2))`, zero
    when either sine factor vanishes. -/
noncomputable def eigenvalue_matrix (nx ny : ℕ) (dxs dys : ℝ) (i j : ℕ) : ℝ :=
  let sine_x_factor := Real.pi / (2 * ((nx : ℝ) + 1))
  let sine_y_factor := Real.pi / (2 * ((ny : ℝ) + 1))
  let sinex_sq := Real.sin (((i : ℝ) + 1) * sine_x_factor) *
    Real.sin (((i : ℝ) + 1) * sine_x_factor)
  let siney_sq := Real.sin (((j : ℝ) + 1) * sine_y_factor) *
    Real.sin (((j : ℝ) + 1) * sine_y_factor)
  if sinex_sq ≠ 0 ∧ siney_sq ≠ 0 then
    norm_fac nx ny / (-4 * (sinex_sq / dxs + siney_sq / dys))
  else 0

/-- The eigenvalue formula as the specification writes it, with 1-based
    frequency indices:
    `norm / (-4*(sin^2(pi i/(2(nx+1)))/dx^2 + sin^2(pi j/(2(ny+1)))/dy^2))`. -/
noncomputable def lambda_spec (nx ny : ℕ) (dxs dys : ℝ) (i j : ℕ) : ℝ :=
  norm_fac nx ny /
    (-4 * (Real.sin (Real.pi * (i : ℝ) / (2 * ((nx : ℝ) + 1))) ^ 2 / dxs +
           Real.sin (Real.pi * (j : ℝ) / (2 * ((ny : ℝ) + 1))) ^ 2 / dys))

/-- `SolvePoissonEquation` (lines 147-194): expand, FFT, shrink, multiply
    pointwise by the eigenvalue matrix, expand, FFT, shrink.  The staging
    area holds the source on entry and the solution on exit. -/
noncomputable def dirichletSolve (nx ny : ℕ) (dxs dys : ℝ)
    (src : ℕ → ℕ → ℝ) : ℕ → ℕ → ℝ :=
  let spectral := shrinkC2R (dftR2C (2 * nx + 2) (2 * ny + 2) (expandR2R nx ny src))
  let multiplied := fun i j => spectral i j * eigenvalue_matrix nx ny dxs dys i j
  shrinkC2R (dftR2C (2 * nx + 2) (2 * ny + 2) (expandR2R nx ny multiplied))

/-! ## Geometric multigrid driver
    From `src/mg_solver/HpMultiGrid.cpp`, `MultiGrid::solve_doit`
    (lines 1950-2053).  The effect of one V-cycle on the residual max-norm
    is abstracted into the sequence `norms : ℕ → ℚ` (`norms i` is `norminf`
    recomputed after the V-cycle of iteration `i`, 0-based); everything
    else (initial norms, target, flags, aborts) follows the source. -/

/-- Outcome of `solve_doit`: return without entering the iteration loop,
    return with the `converged` flag set, or one of the two aborts. -/
inductive MgOutcome where
  | noIterNeeded
  | converged
  | abortDiverged
  | abortNotConverged
deriving DecidableEq

/-- The iteration loop of `solve_doit` (lines 2002-2051), including the
    post-loop `if (!converged) Abort` check.  `c` is the `converged` flag
    (initially `true`, set to `false` at the top of each iteration); `fuel`
    is the remaining iteration count `nummaxiter - iter`. -/
def mgLoop (tgt dv : ℚ) (norms : ℕ → ℚ) : ℕ → ℕ → Bool → MgOutcome
  | _, 0, c => if c then .converged else .abortNotConverged
  | it, fuel + 1, _ =>
    let n := norms it
    if n ≤ tgt then .converged
    else if n > dv then .abortDiverged
    else mgLoop tgt dv norms (it + 1) fuel false

/-- `solve_doit` (lines 1950-2053): `max_norm` is the larger of the
    right-hand-side and initial-residual max-norms, the convergence target
    is `max(tol_abs, max(tol_rel, 1e-16)*max_norm)`, the divergence bound is
    `1e20*max_norm`, and the loop runs at most `nummaxiter` iterations. -/
def mgSolveDoit (resnorm0 rhsnorm0 tolRel tolAbs : ℚ) (nummaxiter : ℕ)
    (norms : ℕ → ℚ) : MgOutcome :=
  let maxNorm := if rhsnorm0 ≥ resnorm0 then rhsnorm0 else resnorm0
  let resTarget := max tolAbs (max tolRel (1 / 10 ^ 16) * maxNorm)
  if resnorm0 ≤ resTarget then .noIterNeeded
  else mgLoop resTarget (10 ^ 20 * maxNorm) norms 0 nummaxiter true

/-- The convergence target of `solve_doit` (line 1995), exposed for the
    statements below. -/
def mgResTarget (resnorm0 rhsnorm0 tolRel tolAbs : ℚ) : ℚ :=
  max tolAbs (max tolRel (1 / 10 ^ 16) * (if rhsnorm0 ≥ resnorm0 then rhsnorm0 else resnorm0))

/-! ## Longitudinal pipeline
    From `src/Hipace.cpp`: `Hipace::Wait` (lines 671-710), `Hipace::Notify`
    (lines 712-753), `Hipace::NotifyFinish` (lines 755-768) and
    `comm_z_tag = 1000` (line 13).  Slice indices 2 and 3 of the slice
    store are `Previous1` and `Previous2`; their component counts are
    `ncomp2` and `ncomp3`, and the valid box of a slice has `slicePoints`
    points. -/

/-- MPI-level actions on the z communicator taken by the pipeline. -/
inductive MpiOp where
  | recvBlocking (src tag payload : ℕ)
  | isend (dst tag payload : ℕ)
  | waitSend
  | freeBuffer
deriving DecidableEq

/-- `comm_z_tag` (Hipace.cpp line 13). -/
def comm_z_tag : ℕ := 1000

/-- `nreals_total = bx.numPts()*ncomp2 + bx.numPts()*ncomp3`
    (lines 685-687 and 730-732). -/
def payloadSize (slicePoints ncomp2 ncomp3 : ℕ) : ℕ :=
  slicePoints * ncomp2 + slicePoints * ncomp3

/-- `Hipace::Wait`: every rank but the top-most in z (`m_rank_z !=
    m_numprocs_z - 1`) performs one blocking `MPI_Recv` of slices 2 and 3
    from rank `m_rank_z + 1` with tag `comm_z_tag` on the z communicator. -/
def waitOps (numprocsZ rankZ slicePoints ncomp2 ncomp3 : ℕ) : List MpiOp :=
  if rankZ ≠ numprocsZ - 1 then
    [MpiOp.recvBlocking (rankZ + 1) comm_z_tag (payloadSize slicePoints ncomp2 ncomp3)]
  else []

/-- `Hipace::NotifyFinish`: every rank but the bottom-most (`m_rank_z != 0`)
    with an outstanding send buffer performs `MPI_Wait` on the send request
    and then frees the buffer, in that order. -/
def notifyFinishOps (rankZ : ℕ) (sendOutstanding : Bool) : List MpiOp :=
  if rankZ ≠ 0 then
    (if sendOutstanding then [MpiOp.waitSend, MpiOp.freeBuffer] else [])
  else []

/-- `Hipace::Notify`: every rank but the bottom-most finishes the previous
    send (`NotifyFinish`) and then performs one non-blocking `MPI_Isend` of
    slices 2 and 3 to rank `m_rank_z - 1` with tag `comm_z_tag`. -/
def notifyOps (rankZ slicePoints ncomp2 ncomp3 : ℕ) (sendOutstanding : Bool) : List MpiOp :=
  if rankZ ≠ 0 then
    notifyFinishOps rankZ sendOutstanding ++
      [MpiOp.isend (rankZ - 1) comm_z_tag (payloadSize slicePoints ncomp2 ncomp3)]
  else []

/-- Recognizer for blocking receives, to count them. -/
def isRecv : MpiOp → Bool
  | MpiOp.recvBlocking _ _ _ => true
  | _ => false

/-- Recognizer for non-blocking sends, to count them. -/
def isSend : MpiOp → Bool
  | MpiOp.isend _ _ _ => true
  | _ => false

/-! ## Slipped-particle shift
    From `src/particles/sorting/SliceSort.cpp`, `shiftSlippedParticles`
    (lines 12-114).  A beam particle is modelled by its id, its z-cell
    index `static_cast<int>((pos(2) - plo_z) * dzi)` (precomputed here, the
    code recomputes it in each predicate), and an opaque payload standing
    for the remaining real/int attributes that are copied wholesale. -/

/-- Beam particle: id, z-cell index, remaining attributes. -/
structure BeamParticle where
  pid : ℤ
  zcell : ℤ
  payload : ℕ
deriving DecidableEq

/-- The predicate of the first prefix-sum pass: valid and staying on This
    (`id >= 0 && zcell >= slice`). -/
def staysB (slice : ℤ) (p : BeamParticle) : Bool :=
  decide (0 ≤ p.pid) && decide (slice ≤ p.zcell)

/-- The predicate of the second prefix-sum pass: valid and slipped
    (`id >= 0 && zcell < slice`). -/
def slippedB (slice : ℤ) (p : BeamParticle) : Bool :=
  decide (0 ≤ p.pid) && decide (p.zcell < slice)

/-- Invalid particles (`id < 0`). -/
def invalidB (p : BeamParticle) : Bool :=
  decide (p.pid < 0)

/-- `shiftSlippedParticles`: given the This-slice tile and the Next-slice
    tile, return the new (This, Next) pair.  Early return when This is
    empty (line 17) or when there is nothing invalid and nothing slipped
    (line 53); otherwise the first prefix-sum compacts the staying
    particles into a fresh tile that replaces This (lines 68-86, 110-111),
    and the second appends the slipped particles after the `next_size`
    existing particles of Next (lines 88-108, 61). -/
def shiftSlippedParticles (slice : ℤ) (ths nxt : List BeamParticle) :
    List BeamParticle × List BeamParticle :=
  if ths.length = 0 then (ths, nxt)
  else
    let num_invalid := (ths.filter invalidB).length
    let num_slipped := (ths.filter (slippedB slice)).length
    if num_invalid = 0 ∧ num_slipped = 0 then (ths, nxt)
    else (ths.filter (staysB slice), nxt ++ ths.filter (slippedB slice))

/-! # Theorems -/

/-- The derivative entry written into history slot 0 by the AB5 push
    (PlasmaParticleAdvance.cpp lines 231-235). -/
def newForce (clight_inv : ℚ) (st : PlasmaState) (dz_ux dz_uy dz_psi : ℚ) : Force :=
  { fx := clight_inv * (st.ux * (1 / st.psi))
    fy := clight_inv * (st.uy * (1 / st.psi))
    fux := dz_ux
    fuy := dz_uy
    fpsi := dz_psi }

/-- C1, counterexample: the specification's second AB5 coefficient
    -1387/720 differs from the source's -1387/360 (= -2774/720); at dz = 1
    the two coefficient tables disagree in slots 2 to 5. -/
theorem ab5_coeffs_counterexample :
    ab5_coeffs 1 1 = -1387 / 360 ∧
    claimed_ab5_coeffs 1 1 = -1387 / 720 ∧
    ab5_coeffs 1 1 ≠ claimed_ab5_coeffs 1 1 ∧
    ab5_coeffs 1 2 ≠ claimed_ab5_coeffs 1 2 ∧
    ab5_coeffs 1 3 ≠ claimed_ab5_coeffs 1 3 ∧
    ab5_coeffs 1 4 ≠ claimed_ab5_coeffs 1 4 := by
  refine ⟨?_, ?_, ?_, ?_, ?_, ?_⟩ <;> norm_num [ab5_coeffs, claimed_ab5_coeffs]

/-- C1 (amended): the per-step derivative F evaluated by
    AdvancePlasmaParticles is written into slot 0 of the ring of 5 history
    vectors, the state (x, y, ux, uy, psi) is updated by adding, for each
    history slot iab = 0..4, the Adams-Bashforth-5 coefficient
    (1901, -2774, 2616, -1274, 251)[iab]/720 times dz times the stored
    derivative, and the five history slots are rotated afterwards. -/
theorem ab5_push_amended (dz clight_inv dz_ux dz_uy dz_psi : ℚ) (st : PlasmaState) :
    (ab5_coeffs dz 0 = (1901 / 720) * dz ∧
     ab5_coeffs dz 1 = (-2774 / 720) * dz ∧
     ab5_coeffs dz 2 = (2616 / 720) * dz ∧
     ab5_coeffs dz 3 = (-1274 / 720) * dz ∧
     ab5_coeffs dz 4 = (251 / 720) * dz) ∧
    (histWithNew st.hist (newForce clight_inv st dz_ux dz_uy dz_psi) 0 =
        newForce clight_inv st dz_ux dz_uy dz_psi ∧
     histWithNew st.hist (newForce clight_inv st dz_ux dz_uy dz_psi) 1 = st.hist 1 ∧
     histWithNew st.hist (newForce clight_inv st dz_ux dz_uy dz_psi) 2 = st.hist 2 ∧
     histWithNew st.hist (newForce clight_inv st dz_ux dz_uy dz_psi) 3 = st.hist 3 ∧
     histWithNew st.hist (newForce clight_inv st dz_ux dz_uy dz_psi) 4 = st.hist 4) ∧
    ((ab5Push dz clight_inv st dz_ux dz_uy dz_psi false).x =
      st.x + (1901 / 720) * dz * (newForce clight_inv st dz_ux dz_uy dz_psi).fx
           + (-2774 / 720) * dz * (st.hist 1).fx + (2616 / 720) * dz * (st.hist 2).fx
           + (-1274 / 720) * dz * (st.hist 3).fx + (251 / 720) * dz * (st.hist 4).fx ∧
     (ab5Push dz clight_inv st dz_ux dz_uy dz_psi false).y =
      st.y + (1901 / 720) * dz * (newForce clight_inv st dz_ux dz_uy dz_psi).fy
           + (-2774 / 720) * dz * (st.hist 1).fy + (2616 / 720) * dz * (st.hist 2).fy
           + (-1274 / 720) * dz * (st.hist 3).fy + (251 / 720) * dz * (st.hist 4).fy ∧
     (ab5Push dz clight_inv st dz_ux dz_uy dz_psi false).ux =
      st.ux + (1901 / 720) * dz * dz_ux
            + (-2774 / 720) * dz * (st.hist 1).fux + (2616 / 720) * dz * (st.hist 2).fux
            + (-1274 / 720) * dz * (st.hist 3).fux + (251 / 720) * dz * (st.hist 4).fux ∧
     (ab5Push dz clight_inv st dz_ux dz_uy dz_psi false).uy =
      st.uy + (1901 / 720) * dz * dz_uy
            + (-2774 / 720) * dz * (st.hist 1).fuy + (2616 / 720) * dz * (st.hist 2).fuy
            + (-1274 / 720) * dz * (st.hist 3).fuy + (251 / 720) * dz * (st.hist 4).fuy ∧
     (ab5Push dz clight_inv st dz_ux dz_uy dz_psi false).psi =
      st.psi + (1901 / 720) * dz * dz_psi
             + (-2774 / 720) * dz * (st.hist 1).fpsi + (2616 / 720) * dz * (st.hist 2).fpsi
             + (-1274 / 720) * dz * (st.hist 3).fpsi + (251 / 720) * dz * (st.hist 4).fpsi) ∧
    ((ab5Push dz clight_inv st dz_ux dz_uy dz_psi false).hist 0 = st.hist 4 ∧
     (ab5Push dz clight_inv st dz_ux dz_uy dz_psi false).hist 1 =
        newForce clight_inv st dz_ux dz_uy dz_psi ∧
     (ab5Push dz clight_inv st dz_ux dz_uy dz_psi false).hist 2 = st.hist 1 ∧
     (ab5Push dz clight_inv st dz_ux dz_uy dz_psi false).hist 3 = st.hist 2 ∧
     (ab5Push dz clight_inv st dz_ux dz_uy dz_psi false).hist 4 = st.hist 3) := by
  refine ⟨⟨?_, ?_, ?_, ?_, ?_⟩, ⟨rfl, rfl, rfl, rfl, rfl⟩, ⟨?_, ?_, ?_, ?_, ?_⟩,
    ⟨rfl, rfl, rfl, rfl, rfl⟩⟩ <;>
    simp [ab5Push, histWithNew, newForce, Fin.sum_univ_five, ab5_coeffs] <;>
    first
      | ring1
      | (left
         norm_num)

/-- C3, counterexample: at depos_order_xy = 0 the source allocates ghost
    width (0+1)/2 + 1 = 1 (integer division), while the specification's
    ceil((0+1)/2) + 1 = 2. -/
theorem slices_nguards_counterexample :
    slices_nguards_xy 0 = 1 ∧ claimed_nguards_xy 0 = 2 ∧
    slices_nguards_xy 0 ≠ claimed_nguards_xy 0 ∧
    slices_nguards_xy 2 = 2 ∧ claimed_nguards_xy 2 = 3 := by
  have hc0 : Nat.ceil ((1 : ℚ) / 2) = 1 := by
    rw [Nat.ceil_eq_iff (by norm_num)]
    norm_num
  have hc2 : Nat.ceil ((3 : ℚ) / 2) = 2 := by
    rw [Nat.ceil_eq_iff (by norm_num)]
    norm_num
  have h0 : claimed_nguards_xy 0 = 2 := by
    unfold claimed_nguards_xy
    norm_num [hc0]
  have h2 : claimed_nguards_xy 2 = 3 := by
    unfold claimed_nguards_xy
    norm_num [hc2]
  refine ⟨rfl, h0, ?_, rfl, h2⟩
  rw [h0]
  decide

/-- C3 (amended): for every deposition order depos_order_xy in 0..3, the
    slice field arrays allocated by Fields::AllocData share a common box
    with transverse ghost-cell width floor((depos_order_xy + 1)/2) + 1 in
    both x and y and 0 in z; the widths for orders 0..3 are 1, 2, 2, 3. -/
theorem slices_nguards_amended (o : ℕ) (h : o ≤ 3) :
    slices_nguards o =
      (Nat.floor (((o : ℚ) + 1) / 2) + 1, Nat.floor (((o : ℚ) + 1) / 2) + 1, 0) ∧
    slices_nguards_xy 0 = 1 ∧ slices_nguards_xy 1 = 2 ∧
    slices_nguards_xy 2 = 2 ∧ slices_nguards_xy 3 = 3 := by
  have hfl : Nat.floor (((o : ℚ) + 1) / 2) = (o + 1) / 2 := by
    have hc : ((o : ℚ) + 1) / 2 = ((o + 1 : ℕ) : ℚ) / ((2 : ℕ) : ℚ) := by
      push_cast
      ring
    rw [hc, Nat.floor_div_nat, Nat.floor_natCast]
  refine ⟨?_, rfl, rfl, rfl, rfl⟩
  simp [slices_nguards, slices_nguards_xy, hfl]

/-- C3, witness for the amended theorem at depos_order_xy = 2. -/
theorem slices_nguards_amended_witness :
    (2 ≤ 3) ∧ slices_nguards 2 =
      (Nat.floor (((2 : ℚ) + 1) / 2) + 1, Nat.floor (((2 : ℚ) + 1) / 2) + 1, 0) := by
  exact ⟨by decide, (slices_nguards_amended 2 (by decide)).1⟩

/-- Helper: the iteration count of the predictor-corrector loop never
    exceeds the fuel, and an early exit means the tolerance was met. -/
theorem pcLoopGo_le (tol : ℚ) (err : ℕ → ℚ) :
    ∀ (rem i : ℕ) (e : ℚ),
      (pcLoopGo tol err i e rem).1 ≤ i + rem ∧
      ((pcLoopGo tol err i e rem).1 < i + rem → (pcLoopGo tol err i e rem).2 ≤ tol) := by
  intro rem
  induction rem with
  | zero =>
    intro i e
    simp [pcLoopGo]
  | succ rem ih =>
    intro i e
    by_cases hce : e > tol
    · have h := ih (i + 1) (err (i + 1))
      simp only [pcLoopGo, if_pos hce]
      constructor
      · omega
      · intro hlt
        exact h.2 (by omega)
    · simp only [pcLoopGo, if_neg hce]
      exact ⟨by omega, fun _ => le_of_not_lt hce⟩

/-- Helper: either the predictor-corrector loop never entered its body (the
    result is the initial state), or the final error is the error produced
    by the final iteration. -/
theorem pcLoopGo_final (tol : ℚ) (err : ℕ → ℚ) :
    ∀ (rem i : ℕ) (e : ℚ),
      pcLoopGo tol err i e rem = (i, e) ∨
      (i < (pcLoopGo tol err i e rem).1 ∧
        (pcLoopGo tol err i e rem).2 = err (pcLoopGo tol err i e rem).1) := by
  intro rem
  induction rem with
  | zero =>
    intro i e
    exact Or.inl rfl
  | succ rem ih =>
    intro i e
    by_cases hce : e > tol
    · simp only [pcLoopGo, if_pos hce]
      rcases ih (i + 1) (err (i + 1)) with heq | ⟨hlt, hfin⟩
      · rw [heq]
        exact Or.inr ⟨by omega, rfl⟩
      · exact Or.inr ⟨by omega, hfin⟩
    · have heq : pcLoopGo tol err i e (rem + 1) = (i, e) := by
        simp only [pcLoopGo, if_neg hce]
      exact Or.inl heq

/-- C8: the predictor-corrector loop for (Bx, By) runs while the relative
    error exceeds the tolerance and the iteration count is below the
    maximum, hence performs at most predcorr_max_iterations iterations (an
    early exit means the tolerance was met); the defaults are 4e-2 and 5. -/
theorem pc_loop_bounded (tol : ℚ) (maxIter : ℕ) (err : ℕ → ℚ) :
    (pcLoop tol maxIter err).1 ≤ maxIter ∧
    ((pcLoop tol maxIter err).1 < maxIter → (pcLoop tol maxIter err).2 ≤ tol) ∧
    predcorr_B_error_tolerance_default = 4 / 100 ∧
    predcorr_max_iterations_default = 5 := by
  have h := pcLoopGo_le tol err maxIter 0 1
  simp only [Nat.zero_add] at h
  exact ⟨h.1, h.2, rfl, rfl⟩

/-- C8, witness: with tolerance 1 the initial error 1.0 is not above
    tolerance, the loop exits with 0 iterations, and the early-exit
    conclusion applies. -/
theorem pc_loop_bounded_witness :
    (pcLoop 1 5 (fun _ => 0)).1 < 5 ∧ (pcLoop 1 5 (fun _ => 0)).2 ≤ 1 :=
  ⟨by norm_num [pcLoop, pcLoopGo], (pc_loop_bounded 1 5 (fun _ => 0)).2.1
    (by norm_num [pcLoop, pcLoopGo])⟩

/-- Error sequence of a run whose first iteration produces a relative
    error of 20 and whose later iterations produce 1. -/
def c4err : ℕ → ℚ := fun n => if n = 1 then 20 else 1

/-- C4, counterexample: with the default tolerance 4e-2 and maximum 5, a
    run whose first iteration produces relative error 20 > 10 is not
    aborted: the loop keeps iterating (4 more iterations) and finishes with
    error 1, and the post-loop check does not fire.  The abort is decided
    only by the error left after the final iteration, not by any
    intermediate one. -/
theorem pc_abort_counterexample :
    c4err 1 = 20 ∧
    (pcLoop (4 / 100) 5 c4err).1 = 5 ∧
    (pcLoop (4 / 100) 5 c4err).2 = 1 ∧
    ¬ pcAborts (4 / 100) 5 c4err := by
  refine ⟨rfl, ?_, ?_, ?_⟩ <;> norm_num [pcAborts, pcLoop, pcLoopGo, c4err]

/-- C4 (amended): the predictor-corrector driver aborts, with a fatal
    message naming the mixing factor, the error tolerance, the number of
    iterations and the longitudinal resolution, exactly when the relative
    B-field error left by the final executed iteration (1.0 if no
    iteration ran) exceeds 10; no recovery is attempted after the loop. -/
theorem pc_abort_amended (tol : ℚ) (maxIter : ℕ) (err : ℕ → ℚ) :
    (pcAborts tol maxIter err ↔
      10 < (if (pcLoop tol maxIter err).1 = 0 then (1 : ℚ)
            else err (pcLoop tol maxIter err).1)) ∧
    List.IsInfix "mixing factor".toList predcorrAbortMessage.toList ∧
    List.IsInfix "error tolerance".toList predcorrAbortMessage.toList ∧
    List.IsInfix "number of iterations".toList predcorrAbortMessage.toList ∧
    List.IsInfix "longitudinal resolution".toList predcorrAbortMessage.toList := by
  refine ⟨?_, by decide, by decide, by decide, by decide⟩
  rcases pcLoopGo_final tol err maxIter 0 1 with heq | ⟨hlt, hfin⟩
  · unfold pcAborts pcLoop at *
    rw [heq]
    norm_num
  · unfold pcAborts pcLoop at *
    rw [if_neg (by omega), ← hfin]

/-- Helper: the three predicates stay/slipped/invalid partition any This
    tile: concatenating the three filtered sublists is a permutation of the
    original tile. -/
theorem beam_filter_partition (slice : ℤ) :
    ∀ ths : List BeamParticle,
      List.Perm (ths.filter (staysB slice) ++ ths.filter (slippedB slice) ++
        ths.filter invalidB) ths := by
  intro ths
  induction ths with
  | nil => simp
  | cons a t ih =>
    by_cases hinv : invalidB a = true
    · have hpid : a.pid < 0 := by
        simpa [invalidB] using hinv
      have hs : staysB slice a = false := by
        simp [staysB]
        omega
      have hsl : slippedB slice a = false := by
        simp [slippedB]
        omega
      rw [List.filter_cons_of_neg (by simp [hs]), List.filter_cons_of_neg (by simp [hsl]),
        List.filter_cons_of_pos hinv]
      exact List.perm_middle.trans (ih.cons a)
    · have hpid : 0 ≤ a.pid := by
        simp [invalidB] at hinv
        omega
      by_cases hslip : a.zcell < slice
      · have hs : staysB slice a = false := by
          simp [staysB]
          omega
        have hsl : slippedB slice a = true := by
          simp [slippedB]
          omega
        rw [List.filter_cons_of_neg (by simp [hs]), List.filter_cons_of_pos hsl,
          List.filter_cons_of_neg (by simp [invalidB]; omega)]
        have hassoc : t.filter (staysB slice) ++ a :: t.filter (slippedB slice) ++
            t.filter invalidB =
            t.filter (staysB slice) ++ a :: (t.filter (slippedB slice) ++
              t.filter invalidB) := by
          simp [List.append_assoc]
        rw [hassoc]
        refine List.perm_middle.trans ?_
        refine List.Perm.cons a ?_
        simpa [List.append_assoc] using ih
      · have hs : staysB slice a = true := by
          simp [staysB]
          omega
        rw [List.filter_cons_of_pos hs, List.filter_cons_of_neg (by simp [slippedB]; omega),
          List.filter_cons_of_neg (by simp [invalidB]; omega)]
        simpa using ih.cons a

/-- C10: shiftSlippedParticles partitions the This beam slice: valid
    particles (id >= 0) whose z-cell index is at least the current slice
    stay on This in their original relative order, valid particles whose
    z-cell index is below the current slice are appended after the existing
    particles of Next, invalid particles (id < 0) are dropped, and
    afterwards This holds exactly old count minus dropped minus slipped
    particles: the three classes are a permutation of the old tile, so no
    valid particle is duplicated or lost. -/
theorem shiftSlippedParticles_spec (slice : ℤ) (ths nxt : List BeamParticle) :
    (shiftSlippedParticles slice ths nxt).1 = ths.filter (staysB slice) ∧
    (shiftSlippedParticles slice ths nxt).2 = nxt ++ ths.filter (slippedB slice) ∧
    List.Perm ((shiftSlippedParticles slice ths nxt).1 ++
      ths.filter (slippedB slice) ++ ths.filter invalidB) ths ∧
    (shiftSlippedParticles slice ths nxt).1.length +
      (ths.filter (slippedB slice)).length + (ths.filter invalidB).length =
      ths.length := by
  have hmain : (shiftSlippedParticles slice ths nxt).1 = ths.filter (staysB slice) ∧
      (shiftSlippedParticles slice ths nxt).2 = nxt ++ ths.filter (slippedB slice) := by
    simp only [shiftSlippedParticles]
    by_cases h0 : ths.length = 0
    · rw [if_pos h0]
      have hnil : ths = [] := List.length_eq_zero.mp h0
      subst hnil
      simp
    · rw [if_neg h0]
      by_cases hq : (ths.filter invalidB).length = 0 ∧
          (ths.filter (slippedB slice)).length = 0
      · rw [if_pos hq]
        have hinv : ∀ a ∈ ths, ¬ invalidB a = true :=
          List.filter_eq_nil_iff.mp (List.length_eq_zero.mp hq.1)
        have hsl : ∀ a ∈ ths, ¬ slippedB slice a = true :=
          List.filter_eq_nil_iff.mp (List.length_eq_zero.mp hq.2)
        have hstay : ths.filter (staysB slice) = ths := by
          refine List.filter_eq_self.mpr ?_
          intro a ha
          have h1 := hinv a ha
          have h2 := hsl a ha
          simp [invalidB] at h1
          simp [slippedB] at h2
          simp [staysB]
          omega
        have hslnil : ths.filter (slippedB slice) = [] :=
          List.length_eq_zero.mp hq.2
        rw [hstay, hslnil]
        simp
      · rw [if_neg hq]
        exact ⟨rfl, rfl⟩
  have hperm : List.Perm ((shiftSlippedParticles slice ths nxt).1 ++
      ths.filter (slippedB slice) ++ ths.filter invalidB) ths := by
    rw [hmain.1]
    exact beam_filter_partition slice ths
  refine ⟨hmain.1, hmain.2, hperm, ?_⟩
  have hlen := hperm.length_eq
  simp [List.length_append] at hlen
  omega

/-- C7: between time steps, a rank whose z-rank is not the top-most
    (numprocs_z - 1) performs exactly one blocking receive of slices 2 and
    3 (Previous1, Previous2) from rank_z + 1 with tag 1000, and a rank
    whose z-rank is not the bottom-most (0) performs exactly one
    non-blocking send of those slices to rank_z - 1; the top-most rank
    never receives, the bottom-most never sends, the payload is
    slice_points * (ncomp2 + ncomp3) reals, and NotifyFinish waits on the
    outstanding send before freeing the buffer. -/
theorem pipeline_ops_spec (numprocsZ rankZ slicePoints ncomp2 ncomp3 : ℕ)
    (outstanding : Bool) :
    (rankZ = numprocsZ - 1 → waitOps numprocsZ rankZ slicePoints ncomp2 ncomp3 = []) ∧
    (rankZ ≠ numprocsZ - 1 → waitOps numprocsZ rankZ slicePoints ncomp2 ncomp3 =
      [MpiOp.recvBlocking (rankZ + 1) 1000 (slicePoints * (ncomp2 + ncomp3))]) ∧
    ((waitOps numprocsZ rankZ slicePoints ncomp2 ncomp3).filter isRecv).length =
      (if rankZ = numprocsZ - 1 then 0 else 1) ∧
    (rankZ = 0 → notifyOps rankZ slicePoints ncomp2 ncomp3 outstanding = []) ∧
    (rankZ ≠ 0 → notifyOps rankZ slicePoints ncomp2 ncomp3 outstanding =
      notifyFinishOps rankZ outstanding ++
        [MpiOp.isend (rankZ - 1) 1000 (slicePoints * (ncomp2 + ncomp3))]) ∧
    ((notifyOps rankZ slicePoints ncomp2 ncomp3 outstanding).filter isSend).length =
      (if rankZ = 0 then 0 else 1) ∧
    notifyFinishOps rankZ true =
      (if rankZ = 0 then [] else [MpiOp.waitSend, MpiOp.freeBuffer]) ∧
    payloadSize slicePoints ncomp2 ncomp3 = slicePoints * (ncomp2 + ncomp3) := by
  have hpay : payloadSize slicePoints ncomp2 ncomp3 = slicePoints * (ncomp2 + ncomp3) := by
    simp [payloadSize]
    ring
  refine ⟨?_, ?_, ?_, ?_, ?_, ?_, ?_, hpay⟩
  · intro h
    simp [waitOps, h]
  · intro h
    simp [waitOps, h, comm_z_tag, hpay]
  · by_cases h : rankZ = numprocsZ - 1 <;> simp [waitOps, h, isRecv]
  · intro h
    simp [notifyOps, h]
  · intro h
    simp [notifyOps, h, comm_z_tag, hpay]
  · by_cases h : rankZ = 0 <;>
      cases outstanding <;>
      simp [notifyOps, notifyFinishOps, h, isSend]
  · by_cases h : rankZ = 0 <;> simp [notifyFinishOps, h]

/-- C7, witness: a middle rank (rank_z = 2 of 4) receives from rank 3 and
    sends to rank 1, with payload 10 * (3 + 2) = 50. -/
theorem pipeline_ops_spec_witness :
    waitOps 4 2 10 3 2 = [MpiOp.recvBlocking 3 1000 50] ∧
    notifyOps 2 10 3 2 true =
      notifyFinishOps 2 true ++ [MpiOp.isend 1 1000 50] :=
  ⟨(pipeline_ops_spec 4 2 10 3 2 true).2.1 (by decide),
   (pipeline_ops_spec 4 2 10 3 2 true).2.2.2.2.1 (by decide)⟩

/-- Helper: the multigrid iteration loop never reports the
    no-iterations-needed outcome. -/
theorem mgLoop_ne_noIter (tgt dv : ℚ) (norms : ℕ → ℚ) :
    ∀ (fuel it : ℕ) (c : Bool),
      mgLoop tgt dv norms it fuel c ≠ .noIterNeeded := by
  intro fuel
  induction fuel with
  | zero =>
    intro it c
    cases c <;> simp [mgLoop]
  | succ fuel ih =>
    intro it c
    simp only [mgLoop]
    by_cases h1 : norms it ≤ tgt
    · simp [h1]
    · rw [if_neg h1]
      by_cases h2 : norms it > dv
      · simp [h2]
      · rw [if_neg h2]
        exact ih (it + 1) false

/-- Helper: full characterization of the multigrid iteration loop started
    with the converged flag cleared: it converges at the first iteration
    whose recomputed residual norm meets the target, aborts for divergence
    at the first iteration whose norm exceeds the divergence bound, and
    aborts as not-converged when every available iteration stays strictly
    between target and bound. -/
theorem mgLoop_characterize (tgt dv : ℚ) (norms : ℕ → ℚ) :
    ∀ (fuel it : ℕ),
      (mgLoop tgt dv norms it fuel false = .converged ↔
        ∃ k, k < fuel ∧ norms (it + k) ≤ tgt ∧
          ∀ j, j < k → tgt < norms (it + j) ∧ norms (it + j) ≤ dv) ∧
      (mgLoop tgt dv norms it fuel false = .abortDiverged ↔
        ∃ k, k < fuel ∧ tgt < norms (it + k) ∧ dv < norms (it + k) ∧
          ∀ j, j < k → tgt < norms (it + j) ∧ norms (it + j) ≤ dv) ∧
      (mgLoop tgt dv norms it fuel false = .abortNotConverged ↔
        ∀ k, k < fuel → tgt < norms (it + k) ∧ norms (it + k) ≤ dv) := by
  intro fuel
  induction fuel with
  | zero =>
    intro it
    refine ⟨?_, ?_, ?_⟩ <;> simp [mgLoop]
  | succ fuel ih =>
    intro it
    by_cases h1 : norms it ≤ tgt
    · have he : mgLoop tgt dv norms it (fuel + 1) false = .converged := by
        simp only [mgLoop]
        rw [if_pos h1]
      rw [he]
      refine ⟨?_, ?_, ?_⟩
      · refine iff_of_true rfl ⟨0, by omega, by simpa using h1, by omega⟩
      · refine iff_of_false (by simp) ?_
        rintro ⟨k, hk, hgt, hdv, hall⟩
        rcases Nat.eq_zero_or_pos k with hk0 | hk0
        · subst hk0
          simp at hgt
          exact absurd hgt (not_lt.mpr h1)
        · exact absurd ((hall 0 hk0).1) (by simpa using not_lt.mpr h1)
      · refine iff_of_false (by simp) ?_
        intro hall
        exact absurd ((hall 0 (by omega)).1) (by simpa using not_lt.mpr h1)
    · by_cases h2 : norms it > dv
      · have he : mgLoop tgt dv norms it (fuel + 1) false = .abortDiverged := by
          simp only [mgLoop]
          rw [if_neg h1, if_pos h2]
        rw [he]
        refine ⟨?_, ?_, ?_⟩
        · refine iff_of_false (by simp) ?_
          rintro ⟨k, hk, hle, hall⟩
          rcases Nat.eq_zero_or_pos k with hk0 | hk0
          · subst hk0
            simp at hle
            exact absurd hle h1
          · exact absurd ((hall 0 hk0).2) (by simpa using not_le.mpr h2)
        · refine iff_of_true rfl ⟨0, by omega, by simpa using not_le.mp h1,
            by simpa using h2, by omega⟩
        · refine iff_of_false (by simp) ?_
          intro hall
          exact absurd ((hall 0 (by omega)).2) (by simpa using not_le.mpr h2)
      · have he : mgLoop tgt dv norms it (fuel + 1) false =
            mgLoop tgt dv norms (it + 1) fuel false := by
          simp only [mgLoop]
          rw [if_neg h1, if_neg h2]
        have hgt : tgt < norms it := not_le.mp h1
        have hle : norms it ≤ dv := not_lt.mp h2
        obtain ⟨ih1, ih2, ih3⟩ := ih (it + 1)
        rw [he]
        refine ⟨?_, ?_, ?_⟩
        · rw [ih1]
          constructor
          · rintro ⟨k, hk, hke, hall⟩
            refine ⟨k + 1, by omega, ?_, ?_⟩
            · rw [show it + (k + 1) = it + 1 + k from by omega]
              exact hke
            · intro j hj
              rcases Nat.eq_zero_or_pos j with hj0 | hj0
              · subst hj0
                simpa using ⟨hgt, hle⟩
              · obtain ⟨j', rfl⟩ := Nat.exists_eq_add_of_lt hj0
                rw [show it + (0 + j' + 1) = it + 1 + j' from by omega]
                exact hall j' (by omega)
          · rintro ⟨k, hk, hke, hall⟩
            rcases Nat.eq_zero_or_pos k with hk0 | hk0
            · subst hk0
              simp at hke
              exact absurd hke h1
            · obtain ⟨k', rfl⟩ := Nat.exists_eq_add_of_lt hk0
              refine ⟨k', by omega, ?_, ?_⟩
              · rw [show it + 1 + k' = it + (0 + k' + 1) from by omega]
                exact hke
              · intro j hj
                have := hall (j + 1) (by omega)
                rw [show it + (j + 1) = it + 1 + j from by omega] at this
                exact this
        · rw [ih2]
          constructor
          · rintro ⟨k, hk, hkg, hkd, hall⟩
            refine ⟨k + 1, by omega, ?_, ?_, ?_⟩
            · rw [show it + (k + 1) = it + 1 + k from by omega]
              exact hkg
            · rw [show it + (k + 1) = it + 1 + k from by omega]
              exact hkd
            · intro j hj
              rcases Nat.eq_zero_or_pos j with hj0 | hj0
              · subst hj0
                simpa using ⟨hgt, hle⟩
              · obtain ⟨j', rfl⟩ := Nat.exists_eq_add_of_lt hj0
                rw [show it + (0 + j' + 1) = it + 1 + j' from by omega]
                exact hall j' (by omega)
          · rintro ⟨k, hk, hkg, hkd, hall⟩
            rcases Nat.eq_zero_or_pos k with hk0 | hk0
            · subst hk0
              simp at hkd
              exact absurd hkd (not_lt.mpr hle)
            · obtain ⟨k', rfl⟩ := Nat.exists_eq_add_of_lt hk0
              refine ⟨k', by omega, ?_, ?_, ?_⟩
              · rw [show it + 1 + k' = it + (0 + k' + 1) from by omega]
                exact hkg
              · rw [show it + 1 + k' = it + (0 + k' + 1) from by omega]
                exact hkd
              · intro j hj
                have := hall (j + 1) (by omega)
                rw [show it + (j + 1) = it + 1 + j from by omega] at this
                exact this
        · rw [ih3]
          constructor
          · intro hall k hk
            rcases Nat.eq_zero_or_pos k with hk0 | hk0
            · subst hk0
              simpa using ⟨hgt, hle⟩
            · obtain ⟨k', rfl⟩ := Nat.exists_eq_add_of_lt hk0
              have := hall k' (by omega)
              rw [show it + 1 + k' = it + (0 + k' + 1) from by omega] at this
              exact this
          · intro hall k hk
            have := hall (k + 1) (by omega)
            rw [show it + (k + 1) = it + 1 + k from by omega] at this
            exact this

/-- C6, counterexample: calling the multigrid driver with nummaxiter = 0
    and an initial residual strictly above the convergence target returns
    without aborting (the converged flag is still true from its
    initialization), even though the loop ended without satisfying the
    convergence criterion. -/
theorem mg_solve_counterexample :
    mgSolveDoit 1 1 0 0 0 (fun _ => 5) = .converged ∧
    ¬ ((1 : ℚ) ≤ mgResTarget 1 1 0 0) := by
  constructor
  · norm_num [mgSolveDoit, mgLoop]
  · norm_num [mgResTarget]

/-- C6 (amended): provided at least one iteration is permitted
    (nummaxiter >= 1), the geometric multigrid solver recomputes the
    residual max-norm once per V-cycle and declares convergence exactly
    when max|r| <= max(tol_abs, max(tol_rel, 1e-16) * max_norm), where
    max_norm is the larger of the initial residual max-norm and the
    right-hand-side max-norm; the solver aborts for divergence at the first
    iteration whose residual exceeds 1e20 * max_norm without meeting the
    target, and aborts as not-converged when the loop ends with every
    iteration's residual strictly between target and divergence bound
    (with nummaxiter = 0 the code instead returns without aborting). -/
theorem mg_solve_amended (resnorm0 rhsnorm0 tolRel tolAbs : ℚ) (nummaxiter : ℕ)
    (norms : ℕ → ℚ) (h : 1 ≤ nummaxiter) :
    (mgResTarget resnorm0 rhsnorm0 tolRel tolAbs =
      max tolAbs (max tolRel (1 / 10 ^ 16) * max resnorm0 rhsnorm0)) ∧
    (mgSolveDoit resnorm0 rhsnorm0 tolRel tolAbs nummaxiter norms = .noIterNeeded ↔
      resnorm0 ≤ mgResTarget resnorm0 rhsnorm0 tolRel tolAbs) ∧
    (mgSolveDoit resnorm0 rhsnorm0 tolRel tolAbs nummaxiter norms = .converged ↔
      ¬ (resnorm0 ≤ mgResTarget resnorm0 rhsnorm0 tolRel tolAbs) ∧
      ∃ k, k < nummaxiter ∧ norms k ≤ mgResTarget resnorm0 rhsnorm0 tolRel tolAbs ∧
        ∀ j, j < k → mgResTarget resnorm0 rhsnorm0 tolRel tolAbs < norms j ∧
          norms j ≤ 10 ^ 20 * max resnorm0 rhsnorm0) ∧
    (mgSolveDoit resnorm0 rhsnorm0 tolRel tolAbs nummaxiter norms = .abortDiverged ↔
      ¬ (resnorm0 ≤ mgResTarget resnorm0 rhsnorm0 tolRel tolAbs) ∧
      ∃ k, k < nummaxiter ∧ mgResTarget resnorm0 rhsnorm0 tolRel tolAbs < norms k ∧
        10 ^ 20 * max resnorm0 rhsnorm0 < norms k ∧
        ∀ j, j < k → mgResTarget resnorm0 rhsnorm0 tolRel tolAbs < norms j ∧
          norms j ≤ 10 ^ 20 * max resnorm0 rhsnorm0) ∧
    (mgSolveDoit resnorm0 rhsnorm0 tolRel tolAbs nummaxiter norms = .abortNotConverged ↔
      ¬ (resnorm0 ≤ mgResTarget resnorm0 rhsnorm0 tolRel tolAbs) ∧
      ∀ k, k < nummaxiter → mgResTarget resnorm0 rhsnorm0 tolRel tolAbs < norms k ∧
        norms k ≤ 10 ^ 20 * max resnorm0 rhsnorm0) := by
  have hmaxn : (if rhsnorm0 ≥ resnorm0 then rhsnorm0 else resnorm0) =
      max resnorm0 rhsnorm0 := by
    by_cases hc : resnorm0 ≤ rhsnorm0 <;> simp [max_def, hc, ge_iff_le]
  have htgt : mgResTarget resnorm0 rhsnorm0 tolRel tolAbs =
      max tolAbs (max tolRel (1 / 10 ^ 16) * max resnorm0 rhsnorm0) := by
    rw [mgResTarget, hmaxn]
  obtain ⟨m, rfl⟩ : ∃ m, nummaxiter = m + 1 :=
    ⟨nummaxiter - 1, by omega⟩
  by_cases hres : resnorm0 ≤ mgResTarget resnorm0 rhsnorm0 tolRel tolAbs
  · have he : mgSolveDoit resnorm0 rhsnorm0 tolRel tolAbs (m + 1) norms =
        .noIterNeeded := by
      rw [mgSolveDoit, if_pos]
      rw [mgResTarget] at hres
      exact hres
    rw [he]
    refine ⟨htgt, iff_of_true rfl hres, iff_of_false (by simp) ?_,
      iff_of_false (by simp) ?_, iff_of_false (by simp) ?_⟩ <;>
      exact fun hc => absurd hres hc.1
  · have hres' : ¬ (resnorm0 ≤
        max tolAbs (max tolRel (1 / 10 ^ 16) * max resnorm0 rhsnorm0)) := by
      rw [htgt] at hres
      exact hres
    have he : mgSolveDoit resnorm0 rhsnorm0 tolRel tolAbs (m + 1) norms =
        mgLoop (mgResTarget resnorm0 rhsnorm0 tolRel tolAbs)
          (10 ^ 20 * max resnorm0 rhsnorm0) norms 0 (m + 1) false := by
      simp only [mgSolveDoit]
      rw [hmaxn, if_neg hres', htgt]
      simp only [mgLoop]
    obtain ⟨hc1, hc2, hc3⟩ := mgLoop_characterize
      (mgResTarget resnorm0 rhsnorm0 tolRel tolAbs)
      (10 ^ 20 * max resnorm0 rhsnorm0) norms (m + 1) 0
    simp only [Nat.zero_add] at hc1 hc2 hc3
    rw [he]
    refine ⟨htgt, ?_, ?_, ?_, ?_⟩
    · exact iff_of_false (mgLoop_ne_noIter _ _ _ _ _ _) (fun hcon => hres hcon)
    · rw [hc1]
      exact ⟨fun hx => ⟨hres, hx⟩, fun hx => hx.2⟩
    · rw [hc2]
      exact ⟨fun hx => ⟨hres, hx⟩, fun hx => hx.2⟩
    · rw [hc3]
      exact ⟨fun hx => ⟨hres, hx⟩, fun hx => hx.2⟩

/-- C6, witness for the amended theorem: with tol_abs = 1 and a zero
    initial residual the solver reports that no iterations are needed. -/
theorem mg_solve_amended_witness :
    (1 ≤ 1) ∧ mgSolveDoit 0 0 0 1 1 (fun _ => 0) = .noIterNeeded :=
  ⟨le_refl 1, ((mg_solve_amended 0 0 0 1 1 (fun _ => 0) (le_refl 1)).2.1).mpr
    (by norm_num [mgResTarget])⟩

/-- C2, counterexample: accumulators SumWeights = 1, SumWeightsTimesUz =
    10, SumWeightsTimesUzSquared = 104, MinUz = 5 give mean 10 and sigma 2,
    so mean - 4 sigma = 2; for an electron beam (mass = m_e = 1) with
    threshold 1 the code computes max(min(max(2, 5), 1e30), 1) = 5, while
    the specification's max(min(2, 5), 1) = 2. -/
theorem candidate_min_uz_counterexample :
    candidate_min_uz 1 10 104 5 1 1 1 = 5 ∧
    claimed_candidate_min_uz 1 10 104 5 1 = 2 ∧
    candidate_min_uz 1 10 104 5 1 1 1 ≠ claimed_candidate_min_uz 1 10 104 5 1 := by
  have hs : sigma_uz 1 10 104 = 2 := by
    unfold sigma_uz
    rw [show |(104 : ℝ) / 1 - 10 / 1 * (10 / 1)| = 2 ^ 2 by norm_num]
    exact Real.sqrt_sq (by norm_num)
  have h1 : candidate_min_uz 1 10 104 5 1 1 1 = 5 := by
    unfold candidate_min_uz chosen_min_uz max_supported_uz
    rw [hs]
    rw [show (10 : ℝ) / 1 - 4 * 2 = 2 by norm_num]
    rw [max_eq_right (by norm_num : (2 : ℝ) ≤ 5), min_eq_left (by norm_num : (5 : ℝ) ≤ 10 ^ 30)]
    rw [show (5 : ℝ) * 1 * 1 / 1 / 1 = 5 by norm_num]
    exact max_eq_left (by norm_num)
  have h2 : claimed_candidate_min_uz 1 10 104 5 1 = 2 := by
    unfold claimed_candidate_min_uz
    rw [hs]
    rw [show (10 : ℝ) / 1 - 4 * 2 = 2 by norm_num]
    rw [min_eq_left (by norm_num : (2 : ℝ) ≤ 5)]
    exact max_eq_left (by norm_num)
  exact ⟨h1, h2, by rw [h1, h2]; norm_num⟩

/-- C2 (amended): in AdaptiveTimeStep::CalculateFromMinUz, for every beam
    with nonzero summed weight, the candidate minimum uz used for the new
    time step equals max(min(max(mean_uz - 4*sigma_uz, min_uz), 1e30) *
    (mass/m_e)^2, threshold): the accumulated minimum bounds mean - 4 sigma
    from below (an inner max, not min), the result is capped at the
    supported maximum 1e30 and scaled by the beam-to-electron mass ratio
    squared before the threshold clamp. -/
theorem candidate_min_uz_amended
    (sumW sumWUz sumWUzSq minUz mass m_e threshold : ℝ) (h : sumW ≠ 0) :
    candidate_min_uz sumW sumWUz sumWUzSq minUz mass m_e threshold =
      max (min (max (sumWUz / sumW - 4 * sigma_uz sumW sumWUz sumWUzSq) minUz)
            (10 ^ 30) * (mass / m_e) ^ 2) threshold ∧
    sigma_uz sumW sumWUz sumWUzSq =
      Real.sqrt |sumWUzSq / sumW - (sumWUz / sumW) ^ 2| := by
  constructor
  · unfold candidate_min_uz chosen_min_uz max_supported_uz
    congr 1
    ring
  · unfold sigma_uz
    rw [sq]

/-- C2, witness for the amended theorem at the counterexample accumulators. -/
theorem candidate_min_uz_amended_witness :
    (1 : ℝ) ≠ 0 ∧
    candidate_min_uz 1 10 104 5 1 1 1 =
      max (min (max (10 / 1 - 4 * sigma_uz 1 10 104) 5) (10 ^ 30) * (1 / 1) ^ 2) 1 :=
  ⟨one_ne_zero, (candidate_min_uz_amended 1 10 104 5 1 1 1 one_ne_zero).1⟩

/-- C9: ComputeRelBFieldError is total: it returns 0 (rather than
    dividing) whenever norm_B divided by the number of transverse grid
    points is at most 1e-10, performs the division norm_Bdiff/norm_B only
    when that average magnitude exceeds 1e-10, and in particular yields 0
    for identically zero B fields. -/
theorem computeRelBFieldError_total (bxv byv bxI byI : List ℝ) (numPts m k : ℕ) :
    (Real.sqrt (fieldDot bxv + fieldDot byv) / numPts ≤ 1 / 10 ^ 10 →
      computeRelBFieldError bxv byv bxI byI numPts = 0) ∧
    (1 / 10 ^ 10 < Real.sqrt (fieldDot bxv + fieldDot byv) / numPts →
      computeRelBFieldError bxv byv bxI byI numPts =
        Real.sqrt (fieldDot (List.zipWith (fun a b => a - b) bxv bxI)
            + fieldDot (List.zipWith (fun a b => a - b) byv byI)) /
          Real.sqrt (fieldDot bxv + fieldDot byv)) ∧
    computeRelBFieldError (List.replicate m 0) (List.replicate k 0) bxI byI numPts = 0 := by
  refine ⟨?_, ?_, ?_⟩
  · intro hle
    unfold computeRelBFieldError
    rw [if_neg (not_lt.mpr hle)]
  · intro hgt
    unfold computeRelBFieldError
    rw [if_pos hgt]
  · have hz : ∀ n : ℕ, fieldDot (List.replicate n (0 : ℝ)) = 0 := by
      intro n
      unfold fieldDot
      induction n with
      | zero => simp
      | succ n ih => simp [ih]
    unfold computeRelBFieldError
    rw [if_neg]
    rw [hz m, hz k]
    norm_num

/-- C9, witness: zero one-cell B fields give relative error 0 through the
    guarded branch. -/
theorem computeRelBFieldError_total_witness :
    computeRelBFieldError [(0 : ℝ)] [0] [1] [2] 1 = 0 := by
  have h := (computeRelBFieldError_total [(0 : ℝ)] [0] [1] [2] 1 1 1).1
  apply h
  have hd : fieldDot [(0 : ℝ)] = 0 := by
    unfold fieldDot
    simp
  rw [hd]
  norm_num

/-- C5: the Dirichlet FFT Poisson solver embeds the (nx, ny) slice into an
    antisymmetric expansion of size (2nx+2, 2ny+2) (the four quadrant
    stores, with the border lines and everything outside the expanded box
    zero), multiplies the transformed coefficients pointwise by the
    precomputed eigenvalue matrix, whose in-range entries (1-based
    frequency indices) equal norm / (-4*(sin^2(pi i/(2(nx+1)))/dx^2 +
    sin^2(pi j/(2(ny+1)))/dy^2)) (the sine factors never vanish in range,
    so the zero guard never fires there), performs a second expansion plus
    FFT round back to real space, and uses the overall normalization
    factor 0.5/(2(nx+1)(ny+1)) folded into the eigenvalues. -/
theorem dirichlet_solver_spec (nx ny : ℕ) (dxs dys : ℝ) (src : ℕ → ℕ → ℝ) :
    (dirichletSolve nx ny dxs dys src =
      shrinkC2R (dftR2C (2 * nx + 2) (2 * ny + 2) (expandR2R nx ny
        (fun i j => shrinkC2R (dftR2C (2 * nx + 2) (2 * ny + 2)
          (expandR2R nx ny src)) i j * eigenvalue_matrix nx ny dxs dys i j)))) ∧
    norm_fac nx ny = 0.5 / (2 * (((nx : ℝ) + 1) * ((ny : ℝ) + 1))) ∧
    (∀ i, i < nx → ∀ j, j < ny →
      eigenvalue_matrix nx ny dxs dys i j =
        lambda_spec nx ny dxs dys (i + 1) (j + 1)) ∧
    (∀ i, i < nx → ∀ j, j < ny →
      expandR2R nx ny src (i + 1) (j + 1) = src i j ∧
      expandR2R nx ny src (i + 1) (j + ny + 2) = -src i (ny - 1 - j) ∧
      expandR2R nx ny src (i + nx + 2) (j + 1) = -src (nx - 1 - i) j ∧
      expandR2R nx ny src (i + nx + 2) (j + ny + 2) = src (nx - 1 - i) (ny - 1 - j)) ∧
    (∀ i j, (i = 0 ∨ j = 0 ∨ i = nx + 1 ∨ j = ny + 1 ∨
        2 * nx + 2 ≤ i ∨ 2 * ny + 2 ≤ j) →
      expandR2R nx ny src i j = 0) := by
  refine ⟨rfl, rfl, ?_, ?_, ?_⟩
  · intro i hi j hj
    have hnx : (0 : ℝ) < 2 * ((nx : ℝ) + 1) := by positivity
    have hny : (0 : ℝ) < 2 * ((ny : ℝ) + 1) := by positivity
    have hilt : ((i : ℝ) + 1) < 2 * ((nx : ℝ) + 1) := by
      have hcast : (i : ℝ) < (nx : ℝ) := by exact_mod_cast hi
      have hnn : (0 : ℝ) ≤ (nx : ℝ) := Nat.cast_nonneg nx
      linarith
    have hjlt : ((j : ℝ) + 1) < 2 * ((ny : ℝ) + 1) := by
      have hcast : (j : ℝ) < (ny : ℝ) := by exact_mod_cast hj
      have hnn : (0 : ℝ) ≤ (ny : ℝ) := Nat.cast_nonneg ny
      linarith
    have hx1 : (0 : ℝ) < ((i : ℝ) + 1) * (Real.pi / (2 * ((nx : ℝ) + 1))) := by
      have := Real.pi_pos
      positivity
    have hy1 : (0 : ℝ) < ((j : ℝ) + 1) * (Real.pi / (2 * ((ny : ℝ) + 1))) := by
      have := Real.pi_pos
      positivity
    have hx2 : ((i : ℝ) + 1) * (Real.pi / (2 * ((nx : ℝ) + 1))) < Real.pi := by
      have hstep : ((i : ℝ) + 1) * (Real.pi / (2 * ((nx : ℝ) + 1))) <
          (2 * ((nx : ℝ) + 1)) * (Real.pi / (2 * ((nx : ℝ) + 1))) := by
        exact mul_lt_mul_of_pos_right hilt (by positivity)
      have heq : (2 * ((nx : ℝ) + 1)) * (Real.pi / (2 * ((nx : ℝ) + 1))) = Real.pi := by
        field_simp
      linarith
    have hy2 : ((j : ℝ) + 1) * (Real.pi / (2 * ((ny : ℝ) + 1))) < Real.pi := by
      have hstep : ((j : ℝ) + 1) * (Real.pi / (2 * ((ny : ℝ) + 1))) <
          (2 * ((ny : ℝ) + 1)) * (Real.pi / (2 * ((ny : ℝ) + 1))) := by
        exact mul_lt_mul_of_pos_right hjlt (by positivity)
      have heq : (2 * ((ny : ℝ) + 1)) * (Real.pi / (2 * ((ny : ℝ) + 1))) = Real.pi := by
        field_simp
      linarith
    have hsinx : Real.sin (((i : ℝ) + 1) * (Real.pi / (2 * ((nx : ℝ) + 1)))) ≠ 0 :=
      ne_of_gt (Real.sin_pos_of_pos_of_lt_pi hx1 hx2)
    have hsiny : Real.sin (((j : ℝ) + 1) * (Real.pi / (2 * ((ny : ℝ) + 1)))) ≠ 0 :=
      ne_of_gt (Real.sin_pos_of_pos_of_lt_pi hy1 hy2)
    simp only [eigenvalue_matrix, lambda_spec]
    rw [if_pos ⟨mul_ne_zero hsinx hsinx, mul_ne_zero hsiny hsiny⟩]
    have hsx : Real.sin (Real.pi * (((i + 1 : ℕ) : ℝ)) / (2 * ((nx : ℝ) + 1))) =
        Real.sin (((i : ℝ) + 1) * (Real.pi / (2 * ((nx : ℝ) + 1)))) := by
      congr 1
      push_cast
      ring
    have hsy : Real.sin (Real.pi * (((j + 1 : ℕ) : ℝ)) / (2 * ((ny : ℝ) + 1))) =
        Real.sin (((j : ℝ) + 1) * (Real.pi / (2 * ((ny : ℝ) + 1)))) := by
      congr 1
      push_cast
      ring
    rw [hsx, hsy]
    ring
  · intro i hi j hj
    refine ⟨?_, ?_, ?_, ?_⟩
    · simp only [expandR2R]
      rw [if_pos (by omega : 1 ≤ i + 1 ∧ i + 1 ≤ nx ∧ 1 ≤ j + 1 ∧ j + 1 ≤ ny)]
      rw [show i + 1 - 1 = i from by omega, show j + 1 - 1 = j from by omega]
    · simp only [expandR2R]
      rw [if_neg (by omega :
        ¬ (1 ≤ i + 1 ∧ i + 1 ≤ nx ∧ 1 ≤ j + ny + 2 ∧ j + ny + 2 ≤ ny))]
      rw [if_pos (by omega :
        1 ≤ i + 1 ∧ i + 1 ≤ nx ∧ ny + 2 ≤ j + ny + 2 ∧ j + ny + 2 ≤ 2 * ny + 1)]
      rw [show i + 1 - 1 = i from by omega,
        show 2 * ny + 1 - (j + ny + 2) = ny - 1 - j from by omega]
    · simp only [expandR2R]
      rw [if_neg (by omega :
        ¬ (1 ≤ i + nx + 2 ∧ i + nx + 2 ≤ nx ∧ 1 ≤ j + 1 ∧ j + 1 ≤ ny))]
      rw [if_neg (by omega :
        ¬ (1 ≤ i + nx + 2 ∧ i + nx + 2 ≤ nx ∧ ny + 2 ≤ j + 1 ∧ j + 1 ≤ 2 * ny + 1))]
      rw [if_pos (by omega :
        nx + 2 ≤ i + nx + 2 ∧ i + nx + 2 ≤ 2 * nx + 1 ∧ 1 ≤ j + 1 ∧ j + 1 ≤ ny)]
      rw [show 2 * nx + 1 - (i + nx + 2) = nx - 1 - i from by omega,
        show j + 1 - 1 = j from by omega]
    · simp only [expandR2R]
      rw [if_neg (by omega :
        ¬ (1 ≤ i + nx + 2 ∧ i + nx + 2 ≤ nx ∧ 1 ≤ j + ny + 2 ∧ j + ny + 2 ≤ ny))]
      rw [if_neg (by omega :
        ¬ (1 ≤ i + nx + 2 ∧ i + nx + 2 ≤ nx ∧ ny + 2 ≤ j + ny + 2 ∧
          j + ny + 2 ≤ 2 * ny + 1))]
      rw [if_neg (by omega :
        ¬ (nx + 2 ≤ i + nx + 2 ∧ i + nx + 2 ≤ 2 * nx + 1 ∧ 1 ≤ j + ny + 2 ∧
          j + ny + 2 ≤ ny))]
      rw [if_pos (by omega :
        nx + 2 ≤ i + nx + 2 ∧ i + nx + 2 ≤ 2 * nx + 1 ∧ ny + 2 ≤ j + ny + 2 ∧
          j + ny + 2 ≤ 2 * ny + 1)]
      rw [show 2 * nx + 1 - (i + nx + 2) = nx - 1 - i from by omega,
        show 2 * ny + 1 - (j + ny + 2) = ny - 1 - j from by omega]
  · intro i j hcase
    simp only [expandR2R]
    split_ifs <;>
      first
        | rfl
        | (exfalso
           omega)

/-- C5, witness: on a 1x1 slice with constant source 3 the upper-left
    quadrant store of the antisymmetric expansion reproduces the source. -/
theorem dirichlet_solver_spec_witness :
    (0 < 1) ∧ expandR2R 1 1 (fun _ _ => (3 : ℝ)) 1 1 = 3 := by
  refine ⟨by decide, ?_⟩
  have h := ((dirichlet_solver_spec 1 1 1 1 (fun _ _ => (3 : ℝ))).2.2.2.1
    0 (by decide) 0 (by decide)).1
  simpa using h

end Hipace
